import Mathlib

/-!
Shallow embedding of review_code_gemini.py: the diff parser, the comment
creation pipeline with its line mapping, and the batched review submission.
External effects (the Gemini call and the GitHub content fetch) are
abstracted as function parameters, and the embedding logs each fetch and
each line-mapping invocation so that call counts can be stated.
-/

set_option maxRecDepth 8000

namespace ReviewCodeGemini

/-- Boolean test that the first character list is a prefix of the second,
by structural recursion so that it evaluates inside the kernel. -/
def prefix_of_chars : List Char → List Char → Bool
  | [], _ => true
  | _ :: _, [] => false
  | c :: cs, d :: ds => decide (c = d) && prefix_of_chars cs ds

/-- Model of Python str.startswith (and of String.startsWith of the Lean
core library, which does not reduce in the kernel): character level
prefix test. -/
def starts_with (s pre : String) : Bool := prefix_of_chars pre.data s.data

/-- Model of Python str.split("\n") at the character level: splitting on
every line feed, keeping empty pieces, with the empty string giving one
empty piece. -/
def split_chars : List Char → List String
  | [] => [""]
  | c :: cs =>
    if c = '\n' then "" :: split_chars cs
    else
      match split_chars cs with
      | [] => [String.mk [c]]
      | s :: ss => String.mk (c :: s.data) :: ss

/-- Model of Python str.split("\n") on strings. -/
def split_on_newline (s : String) : List String := split_chars s.data

/-- Model of Python "\n".join at the string level. -/
def join_newline : List String → String
  | [] => ""
  | [s] => s
  | s :: s2 :: rest => s ++ "\n" ++ join_newline (s2 :: rest)

/-- Model of Python str.splitlines at the character level, restricted to
the line feed separator, which is the only separator occurring in GitHub
API diffs: a trailing line feed does not produce a final empty line, and
the empty string has no lines. -/
def splitlines_chars : List Char → List String
  | [] => []
  | c :: cs =>
    if c = '\n' then "" :: splitlines_chars cs
    else
      match splitlines_chars cs with
      | [] => [String.mk [c]]
      | s :: ss => String.mk (c :: s.data) :: ss

/-- Model of Python str.splitlines on strings. -/
def splitlines (s : String) : List String := splitlines_chars s.data

/-- Model of the Python slice line[6:], dropping the first 6 code points,
at the character level so that it evaluates inside the kernel. -/
def drop_chars (s : String) (n : Nat) : String := String.mk (s.data.drop n)

/-- Pull request metadata, from class PRDetails. The description may be
absent (None) and the empty string is treated as falsy by the Python
`or` fallback in create_prompt. -/
structure PRDetails where
  owner : String
  repo : String
  pull_number : Int
  title : String
  description : Option String
deriving DecidableEq

/-- Simple class holding the file path, from class FileInfo. -/
structure FileInfo where
  path : String
deriving DecidableEq

/-- Model of the unidiff Hunk object: exactly the fields the script
assigns in analyze_code and reads in get_full_line_number. -/
structure Hunk where
  source_start : Int
  source_length : Int
  target_start : Int
  target_length : Int
  content : String
deriving DecidableEq

/-- One entry of the parsed Gemini response, after get_ai_response has
checked that both keys are present and int() has succeeded. -/
structure AIReview where
  lineNumber : Int
  reviewComment : String
deriving DecidableEq

/-- Comment record built in create_comment. -/
structure Comment where
  body : String
  path : String
  position : Int
  full_line_number : Int
deriving DecidableEq

/-- One hunk record produced by parse_diff: the raw header line and the
raw body lines collected after it. -/
structure HunkData where
  header : String
  lines : List String
deriving DecidableEq

/-- One file record produced by parse_diff. -/
structure DiffFile where
  path : String
  hunks : List HunkData
deriving DecidableEq

/-- Loop of get_full_line_number: walks the lines of hunk.content keeping
the absolute line counter (starting at hunk.source_start) and the diff
line counter (starting at 0), exactly as the Python for loop does:
return the absolute counter when the diff counter equals the requested
number; skip removed lines entirely; added lines advance only the diff
counter; all other lines advance both counters. -/
def get_full_line_number_go (diff_line_number : Int) :
    List String → Int → Int → Int
  | [], absolute_line_number, _ => absolute_line_number
  | line :: rest, absolute_line_number, current_diff_line =>
    if current_diff_line = diff_line_number then absolute_line_number
    else if starts_with line "-" then
      get_full_line_number_go diff_line_number rest absolute_line_number
        current_diff_line
    else if starts_with line "+" then
      get_full_line_number_go diff_line_number rest absolute_line_number
        (current_diff_line + 1)
    else
      get_full_line_number_go diff_line_number rest (absolute_line_number + 1)
        (current_diff_line + 1)

/-- Translation of get_full_line_number. The file_lines argument is
received but never read by the Python body; it is kept to mirror the
signature. -/
def get_full_line_number (file_lines : List String) (hunk : Hunk)
    (diff_line_number : Int) : Int :=
  get_full_line_number_go diff_line_number (split_on_newline hunk.content)
    hunk.source_start 0

/-- Body of the per-response loop in create_comment: the line mapping is
invoked first, and only afterwards is the range check applied; an
out-of-range response is skipped with no comment. The second accumulator
component logs the diff line number of every get_full_line_number
invocation, in order. -/
def create_comment_step (file_lines : List String) (file : FileInfo)
    (hunk : Hunk) (acc : List Comment × List Int) (ai_response : AIReview) :
    List Comment × List Int :=
  let line_number := ai_response.lineNumber
  let full_line_number := get_full_line_number file_lines hunk line_number
  if line_number < 1 ∨ line_number > hunk.source_length then
    (acc.1, acc.2 ++ [line_number])
  else
    (acc.1 ++ [{ body := ai_response.reviewComment, path := file.path,
                 position := line_number, full_line_number := full_line_number }],
     acc.2 ++ [line_number])

/-- Translation of create_comment, instrumented with effect logs: the
second component records each get_file_content call (by path, one per
invocation of this function) and the third records each
get_full_line_number invocation (by its diff line number argument). The
GitHub fetch is abstracted as the get_file_content parameter. -/
def create_comment (get_file_content : String → List String)
    (file : FileInfo) (hunk : Hunk) (ai_responses : List AIReview) :
    List Comment × List String × List Int :=
  let file_lines := get_file_content file.path
  let folded := ai_responses.foldl (create_comment_step file_lines file hunk)
    ([], [])
  (folded.1, [file.path], folded.2)

/-- Translation of create_prompt. Braces that are literal text in the
Python f-string are written with hex escapes, and the Python falsy-or
fallback on the description covers both None and the empty string. -/
def create_prompt (file : FileInfo) (hunk : Hunk)
    (pr_details : PRDetails) : String :=
  "Your task is reviewing pull requests. Instructions:\n" ++
  "    - Provide the response in following JSON format:  \x7b\"reviews\": [\x7b\"lineNumber\":  <line_number>, \"reviewComment\": \"<review comment>\"\x7d]\x7d\n" ++
  "    - Provide comments and suggestions ONLY if there is something to improve, otherwise \"reviews\" should be an empty array.\n" ++
  "    - Use GitHub Markdown in comments\n" ++
  "    - Focus on bugs, security issues, and performance problems\n" ++
  "    - Please answer \"Korean\".\n" ++
  "    - IMPORTANT: NEVER suggest adding comments to the code\n\n" ++
  "Review the following code diff in the file \"" ++ file.path ++
  "\" and take the pull request title and description into account when writing the response.\n\n" ++
  "Pull request title: " ++ pr_details.title ++
  "\nPull request description:\n\n---\n" ++
  (match pr_details.description with
   | none => "No description provided"
   | some d => if d = "" then "No description provided" else d) ++
  "\n---\n\nGit diff to review:\n\n```diff\n" ++ hunk.content ++ "\n```\n"

/-- Hunk construction in analyze_code: source_start and target_start are
set to the constant 1; the header string of the parsed hunk record is
never consulted. -/
def build_hunk (hunk_lines : List String) : Hunk :=
  { source_start := 1, source_length := (hunk_lines.length : Int),
    target_start := 1, target_length := (hunk_lines.length : Int),
    content := join_newline hunk_lines }

/-- Body of the per-hunk loop in analyze_code: empty hunks are skipped,
the hunk object is built with constant source_start 1, the reviewer is
invoked on the prompt, and when the response is non-empty create_comment
runs (performing one content fetch). The first accumulator component
collects comments, the second the fetch log. -/
def analyze_hunks_step (ai : String → List AIReview)
    (get_file_content : String → List String) (file_path : String)
    (pr_details : PRDetails) (acc : List Comment × List String)
    (hunk_data : HunkData) : List Comment × List String :=
  let hunk_lines := hunk_data.lines
  if hunk_lines = [] then acc
  else
    let hunk := build_hunk hunk_lines
    let ai_response := ai (create_prompt ⟨file_path⟩ hunk pr_details)
    if ai_response = [] then acc
    else
      let r := create_comment get_file_content ⟨file_path⟩ hunk ai_response
      (acc.1 ++ r.1, acc.2 ++ r.2.1)

/-- Translation of analyze_code, with the Gemini call abstracted as a
function from prompt strings to parsed review lists and the GitHub
content fetch abstracted as get_file_content. The first component is the
produced comment list; the second logs every content fetch by path, in
order. Files with empty path or path "/dev/null" are skipped. -/
def analyze_code (ai : String → List AIReview)
    (get_file_content : String → List String)
    (parsed_diff : List DiffFile) (pr_details : PRDetails) :
    List Comment × List String :=
  parsed_diff.foldl (fun comments file_data =>
    if file_data.path = "" ∨ file_data.path = "/dev/null" then comments
    else
      file_data.hunks.foldl
        (analyze_hunks_step ai get_file_content file_data.path pr_details)
        comments) ([], [])

/-- Location of the live current_hunk object of parse_diff: it is always
the last hunk of the file it was created in, and that file is either the
current one or — because a diff file marker appends the current file to
the result without clearing current_hunk — a file already in the result
list, identified by its index. -/
inductive HunkLoc where
  | inCur : HunkLoc
  | inFiles : Nat → HunkLoc
deriving DecidableEq

/-- State threaded through the parse_diff loop: the closed files, the
current file, and the location of the live hunk, if any. -/
structure ParseState where
  files : List DiffFile
  cur : Option DiffFile
  loc : Option HunkLoc
deriving DecidableEq

/-- Replaces the element at an index, leaving the list unchanged when the
index is out of range. -/
def modify_at : List α → Nat → (α → α) → List α
  | [], _, _ => []
  | x :: xs, 0, g => g x :: xs
  | x :: xs, n + 1, g => x :: modify_at xs n g

/-- Appends a raw line to the last hunk of a hunk list; a no-op on the
empty list, which cannot occur for the located live hunk. -/
def add_line_last : List HunkData → String → List HunkData
  | [], _ => []
  | [h], line => [{ h with lines := h.lines ++ [line] }]
  | h :: h2 :: rest, line => h :: add_line_last (h2 :: rest) line

/-- Appends a raw line to the last hunk of a file. -/
def append_hunk_line (f : DiffFile) (line : String) : DiffFile :=
  { f with hunks := add_line_last f.hunks line }

/-- One iteration of the parse_diff loop, following the elif chain of the
Python source: a diff file marker closes the current file (without
clearing the live hunk, whose location then moves into the result list);
source and target path markers set the path of the current file; a hunk
header opens a new live hunk in the current file; any other line is
appended to the live hunk when one exists. -/
def parse_step (s : ParseState) (line : String) : ParseState :=
  if starts_with line "diff --git" then
    match s.cur with
    | some f =>
      { files := s.files ++ [f],
        cur := some { path := "", hunks := [] },
        loc := match s.loc with
               | some HunkLoc.inCur => some (HunkLoc.inFiles s.files.length)
               | other => other }
    | none => { s with cur := some { path := "", hunks := [] } }
  else if starts_with line "--- a/" then
    match s.cur with
    | some f => { s with cur := some { f with path := drop_chars line 6 } }
    | none => s
  else if starts_with line "+++ b/" then
    match s.cur with
    | some f => { s with cur := some { f with path := drop_chars line 6 } }
    | none => s
  else if starts_with line "@@" then
    match s.cur with
    | some f =>
      { s with cur := some { f with hunks := f.hunks ++ [⟨line, []⟩] },
               loc := some HunkLoc.inCur }
    | none => s
  else
    match s.loc with
    | some HunkLoc.inCur =>
      match s.cur with
      | some f => { s with cur := some (append_hunk_line f line) }
      | none => s
    | some (HunkLoc.inFiles i) =>
      { s with files := modify_at s.files i (fun f => append_hunk_line f line) }
    | none => s

/-- Initial state of the parse_diff loop. -/
def parse_init : ParseState := ⟨[], none, none⟩

/-- Final step of parse_diff: the current file, when present, is appended
to the result (a Python dict with keys is always truthy). -/
def finalize_state (s : ParseState) : List DiffFile :=
  s.files ++ (match s.cur with | some f => [f] | none => [])

/-- Translation of the parse_diff loop over an already split line list. -/
def parse_diff_lines (ls : List String) : List DiffFile :=
  finalize_state (ls.foldl parse_step parse_init)

/-- Translation of parse_diff. -/
def parse_diff (diff_str : String) : List DiffFile :=
  parse_diff_lines (splitlines diff_str)

/-- Batches of the create_review_comment loop, written as the Python
range(0, len(comments), batch_size) slicing: the element at index k of
the result is the slice comments[i : i + batch_size] for the k-th
multiple i of batch_size below the length. Each element of the result is
the comment list of one submission call. -/
def python_batches (batch_size : Nat) (l : List α) : List (List α) :=
  ((List.range l.length).filter (fun i => i % batch_size = 0)).map
    (fun i => (l.drop i).take batch_size)

/-- Translation of create_review_comment, modelled as the sequence of
submission calls it performs: one create_review_comment_batch call per
batch, each carrying the comment list of that batch. -/
def create_review_comment (comments : List Comment)
    (batch_size : Nat := 10) : List (List Comment) :=
  python_batches batch_size comments

/-- Number of file records a parse state will contribute to the final
result: the closed files plus the current one when present. -/
def num_files (s : ParseState) : Nat :=
  s.files.length + (match s.cur with | some _ => 1 | none => 0)

/-- Update of the path of the current file performed by one diff line:
the source and target path marker lines overwrite the path with the
remainder of the line, exactly as the corresponding branches of the
parse loop do, and any other line leaves it unchanged. -/
def path_update (p : String) (l : String) : String :=
  if starts_with l "--- a/" then drop_chars l 6
  else if starts_with l "+++ b/" then drop_chars l 6
  else p

/-- Decomposition of a line list into the lines before the first diff
file marker and the marker sections, each section consisting of its
marker line followed by the lines up to the next marker, in input
order. -/
def split_sections_aux : List String → List String × List (List String)
  | [] => ([], [])
  | l :: ls =>
    if starts_with l "diff --git" then
      ([], (l :: (split_sections_aux ls).1) :: (split_sections_aux ls).2)
    else
      (l :: (split_sections_aux ls).1, (split_sections_aux ls).2)

/-- Marker sections of a line list, in input order. -/
def split_sections (ls : List String) : List (List String) :=
  (split_sections_aux ls).2

/-- Specification of the file record one marker section produces: its
path is the last assignment made by the path marker lines of the
section (starting from the empty path the marker opens), and its hunk
headers are the header lines of the section, in order. -/
def section_spec (sec : List String) : String × List String :=
  (sec.foldl path_update "", sec.filter (fun l => starts_with l "@@"))

/-- Observation of a parsed file record used for the order
correspondence: its path together with its hunk header lines. -/
def record_spec (f : DiffFile) : String × List String :=
  (f.path, f.hunks.map HunkData.header)

theorem modify_at_length : ∀ (l : List α) (i : Nat) (g : α → α),
    (modify_at l i g).length = l.length := by
  intro l
  induction l with
  | nil => intro i g; rfl
  | cons x xs ih =>
    intro i g
    cases i with
    | zero => rfl
    | succ n => simp [modify_at, ih]

theorem parse_step_num_files (s : ParseState) (line : String) :
    num_files (parse_step s line) =
      num_files s + (if starts_with line "diff --git" then 1 else 0) := by
  rcases s with ⟨files, cur, loc⟩
  by_cases h1 : starts_with line "diff --git"
  · cases cur <;> simp [parse_step, num_files, h1]
  · by_cases h2 : starts_with line "--- a/"
    · cases cur <;> simp [parse_step, num_files, h1, h2]
    · by_cases h3 : starts_with line "+++ b/"
      · cases cur <;> simp [parse_step, num_files, h1, h2, h3]
      · by_cases h4 : starts_with line "@@"
        · cases cur <;> simp [parse_step, num_files, h1, h2, h3, h4]
        · rcases loc with - | hl
          · simp [parse_step, num_files, h1, h2, h3, h4]
          · cases hl with
            | inCur => cases cur <;>
                simp [parse_step, num_files, h1, h2, h3, h4]
            | inFiles i =>
                simp [parse_step, num_files, h1, h2, h3, h4, modify_at_length]

theorem foldl_num_files : ∀ (ls : List String) (s : ParseState),
    num_files (ls.foldl parse_step s) =
      num_files s + (ls.filter (fun l => starts_with l "diff --git")).length := by
  intro ls
  induction ls with
  | nil => intro s; simp
  | cons l ls ih =>
    intro s
    simp only [List.foldl_cons, List.filter_cons]
    rw [ih, parse_step_num_files]
    by_cases h : starts_with l "diff --git" <;> simp [h] <;> omega

theorem finalize_length (s : ParseState) :
    (finalize_state s).length = num_files s := by
  rcases s with ⟨files, cur, loc⟩
  cases cur <;> simp [finalize_state, num_files]

theorem create_comment_foldl (fl : List String) (file : FileInfo)
    (hunk : Hunk) : ∀ (rs : List AIReview) (acc : List Comment × List Int),
    rs.foldl (create_comment_step fl file hunk) acc =
      (acc.1 ++ (rs.filter (fun r =>
          decide (1 ≤ r.lineNumber ∧ r.lineNumber ≤ hunk.source_length))).map
        (fun r => ⟨r.reviewComment, file.path, r.lineNumber,
          get_full_line_number fl hunk r.lineNumber⟩),
       acc.2 ++ rs.map (fun r => r.lineNumber)) := by
  intro rs
  induction rs with
  | nil => intro acc; simp
  | cons r rs ih =>
    intro acc
    simp only [List.foldl_cons, List.filter_cons, List.map_cons]
    by_cases h : r.lineNumber < 1 ∨ r.lineNumber > hunk.source_length
    · have hc : decide (1 ≤ r.lineNumber ∧ r.lineNumber ≤ hunk.source_length)
          = false := by
        simp only [decide_eq_false_iff_not]
        omega
      rw [show create_comment_step fl file hunk acc r =
          (acc.1, acc.2 ++ [r.lineNumber]) from by
        simp only [create_comment_step]
        rw [if_pos h]]
      rw [ih]
      simp [hc]
    · have hc : decide (1 ≤ r.lineNumber ∧ r.lineNumber ≤ hunk.source_length)
          = true := by
        simp only [decide_eq_true_eq]
        omega
      rw [show create_comment_step fl file hunk acc r =
          (acc.1 ++ [⟨r.reviewComment, file.path, r.lineNumber,
            get_full_line_number fl hunk r.lineNumber⟩],
           acc.2 ++ [r.lineNumber]) from by
        simp only [create_comment_step]
        rw [if_neg h]]
      rw [ih]
      simp [hc]

theorem analyze_hunks_foldl (ai : String → List AIReview)
    (fetch : String → List String) (p : String) (pr : PRDetails) :
    ∀ (hunks : List HunkData) (acc : List Comment × List String),
    (hunks.foldl (analyze_hunks_step ai fetch p pr) acc).2 =
      acc.2 ++ (hunks.filter (fun hunk_data =>
          decide (hunk_data.lines ≠ []) &&
          decide (ai (create_prompt ⟨p⟩ (build_hunk hunk_data.lines) pr)
            ≠ []))).map (fun _ => p) := by
  intro hunks
  induction hunks with
  | nil => intro acc; simp
  | cons hunk_data hunks ih =>
    intro acc
    simp only [List.foldl_cons, List.filter_cons]
    by_cases h1 : hunk_data.lines = []
    · rw [show analyze_hunks_step ai fetch p pr acc hunk_data = acc from by
        simp only [analyze_hunks_step]
        rw [if_pos h1]]
      rw [ih]
      simp [h1]
    · by_cases h2 : ai (create_prompt ⟨p⟩ (build_hunk hunk_data.lines) pr) = []
      · rw [show analyze_hunks_step ai fetch p pr acc hunk_data = acc from by
          simp only [analyze_hunks_step]
          rw [if_neg h1, if_pos h2]]
        rw [ih]
        simp [h1, h2]
      · rw [show analyze_hunks_step ai fetch p pr acc hunk_data =
            (acc.1 ++ (create_comment fetch ⟨p⟩ (build_hunk hunk_data.lines)
                (ai (create_prompt ⟨p⟩ (build_hunk hunk_data.lines) pr))).1,
             acc.2 ++ [p]) from by
          simp only [analyze_hunks_step]
          rw [if_neg h1, if_neg h2]
          rfl]
        rw [ih]
        simp [h1, h2]

/-- C1: the pipeline hands the line mapper a hunk whose source_start is the
constant 1 rather than the value announced by the @@ header. On a one file
diff whose hunk header announces source start 10, the produced comment has
full_line_number 3, computed from source_start 1; had the parsed value 10
been used, the same mapping would have produced 12. -/
theorem c1_source_start_is_constant_one :
    (analyze_code (fun _ => [⟨2, "c"⟩]) (fun _ => [])
        [⟨"a.txt", [⟨"@@ -10,3 +10,3 @@", [" l1", " l2", " l3"]⟩]⟩]
        ⟨"o", "r", 1, "t", none⟩).1 = [⟨"c", "a.txt", 2, 3⟩] ∧
    get_full_line_number []
      { build_hunk [" l1", " l2", " l3"] with source_start := 10 } 2 = 12 := by
  constructor <;> rfl

/-- C2 counterexample: on the hunk with raw lines [" context1", "-removed1",
"+added1", " context2"] and sourceStart 10, the line mapping at diff line
number 1 does not return 10 as claimed; it returns 11. -/
theorem c2_counterexample :
    ¬ (get_full_line_number []
        ⟨10, 4, 10, 4,
          join_newline
            [" context1", "-removed1", "+added1", " context2"]⟩ 1 = 10) := by
  decide

/-- C2 amended: on that hunk the mapping returns 11 for diff line number 1,
11 for diff line number 2, and 12 for diff line number 3. -/
theorem c2_line_mapping_values :
    get_full_line_number []
        ⟨10, 4, 10, 4,
          join_newline
            [" context1", "-removed1", "+added1", " context2"]⟩ 1 = 11 ∧
    get_full_line_number []
        ⟨10, 4, 10, 4,
          join_newline
            [" context1", "-removed1", "+added1", " context2"]⟩ 2 = 11 ∧
    get_full_line_number []
        ⟨10, 4, 10, 4,
          join_newline
            [" context1", "-removed1", "+added1", " context2"]⟩ 3 = 12 := by
  refine ⟨by rfl, by rfl, by rfl⟩

/-- C3 counterexample: a finding with diffLineNumber 0 is discarded (no
comment is produced), yet the line mapping log is not empty: the mapping
was invoked for it, with argument 0, before the range check. -/
theorem c3_counterexample :
    (create_comment (fun _ => []) ⟨"f"⟩ ⟨1, 3, 1, 3, " a\n b\n c"⟩
        [⟨0, "c"⟩]).1 = [] ∧
    ¬ ((create_comment (fun _ => []) ⟨"f"⟩ ⟨1, 3, 1, 3, " a\n b\n c"⟩
        [⟨0, "c"⟩]).2.2 = []) := by
  constructor
  · rfl
  · decide

/-- C5: a deletion section, whose target file marker is the null device
sentinel, is not excluded from review: parse_diff keeps the source path
(the +++ /dev/null line does not begin with the +++ b/ marker, so the
path set from --- a/old.txt remains), analyze_code therefore does not
skip the file, and a reviewer finding on the hunk produces a comment. -/
theorem c5_deletion_file_reviewed :
    (parse_diff "diff --git a/old.txt b/old.txt\ndeleted file mode 100644\nindex 1111111..0000000\n--- a/old.txt\n+++ /dev/null\n@@ -1,2 +0,0 @@\n-line one\n-line two\n").map
        DiffFile.path = ["old.txt"] ∧
    (analyze_code (fun _ => [⟨1, "c"⟩]) (fun _ => [])
        (parse_diff "diff --git a/old.txt b/old.txt\ndeleted file mode 100644\nindex 1111111..0000000\n--- a/old.txt\n+++ /dev/null\n@@ -1,2 +0,0 @@\n-line one\n-line two\n")
        ⟨"o", "r", 1, "t", none⟩).1 = [⟨"c", "old.txt", 1, 1⟩] := by
  constructor <;> rfl

/-- C6: the result of get_full_line_number does not depend on its
file_lines argument: the Python body never reads it, so any two values,
including the empty list returned when a content fetch fails, give the
same integer. -/
theorem c6_independent_of_file_lines :
    ∀ (fl1 fl2 : List String) (hunk : Hunk) (d : Int),
      get_full_line_number fl1 hunk d = get_full_line_number fl2 hunk d :=
  fun _ _ _ _ => rfl

/-- C7 counterexample: for a file with two hunks that each yield a
reviewer finding, the content fetch runs twice for the path, not exactly
once as claimed. -/
theorem c7_counterexample :
    (analyze_code (fun _ => [⟨1, "c"⟩]) (fun _ => [])
        [⟨"f.txt", [⟨"h1", [" a"]⟩, ⟨"h2", [" b"]⟩]⟩]
        ⟨"o", "r", 1, "t", none⟩).2 = ["f.txt", "f.txt"] ∧
    ¬ ((analyze_code (fun _ => [⟨1, "c"⟩]) (fun _ => [])
        [⟨"f.txt", [⟨"h1", [" a"]⟩, ⟨"h2", [" b"]⟩]⟩]
        ⟨"o", "r", 1, "t", none⟩).2.length = 1) := by
  constructor
  · rfl
  · decide

/-- C4 counterexample: in a two file diff, the index line that follows the
second diff file marker is appended to the hunk of the first file, so the
first hunk of the first file does not consist only of the lines between
its own header and the next marker. -/
theorem c4_counterexample :
    parse_diff "diff --git a/a.txt b/a.txt\n--- a/a.txt\n+++ b/a.txt\n@@ -1,1 +1,1 @@\n x\ndiff --git a/b.txt b/b.txt\nindex 1111111..2222222 100644\n--- a/b.txt\n+++ b/b.txt\n@@ -1,1 +1,1 @@\n y\n" =
      [⟨"a.txt", [⟨"@@ -1,1 +1,1 @@", [" x", "index 1111111..2222222 100644"]⟩]⟩,
       ⟨"b.txt", [⟨"@@ -1,1 +1,1 @@", [" y"]⟩]⟩] ∧
    ¬ ((parse_diff "diff --git a/a.txt b/a.txt\n--- a/a.txt\n+++ b/a.txt\n@@ -1,1 +1,1 @@\n x\ndiff --git a/b.txt b/b.txt\nindex 1111111..2222222 100644\n--- a/b.txt\n+++ b/b.txt\n@@ -1,1 +1,1 @@\n y\n").map
        (fun f => f.hunks.map HunkData.lines) = [[[" x"]], [[" y"]]]) := by
  constructor
  · rfl
  · decide

/-- C3 amended: every out-of-range finding (diffLineNumber below 1 or above
the shown line count of the hunk, which analyze_code stores in
source_length) is discarded — the comments produced are exactly those of
the in-range findings — but the line mapping operation is invoked for
every finding, in-range or not, as the mapping log shows. -/
theorem c3_discard_but_map_all :
    ∀ (fetch : String → List String) (file : FileInfo) (hunk : Hunk)
      (rs : List AIReview),
    (create_comment fetch file hunk rs).1 =
      (rs.filter (fun r =>
          decide (1 ≤ r.lineNumber ∧ r.lineNumber ≤ hunk.source_length))).map
        (fun r => ⟨r.reviewComment, file.path, r.lineNumber,
          get_full_line_number (fetch file.path) hunk r.lineNumber⟩) ∧
    (create_comment fetch file hunk rs).2.2 =
      rs.map (fun r => r.lineNumber) := by
  intro fetch file hunk rs
  have h := create_comment_foldl (fetch file.path) file hunk rs ([], [])
  constructor
  · show (rs.foldl (create_comment_step (fetch file.path) file hunk)
        ([], [])).1 = _
    rw [h]
    simp
  · show (rs.foldl (create_comment_step (fetch file.path) file hunk)
        ([], [])).2 = _
    rw [h]
    simp

/-- C7 amended: for a single reviewable file, the content fetch happens
once per hunk that is non-empty and yields a non-empty reviewer response
— not once per file: the fetch log holds one entry with the file path per
such hunk. -/
theorem c7_fetch_once_per_reviewed_hunk (ai : String → List AIReview)
    (fetch : String → List String) (f : DiffFile) (pr : PRDetails)
    (hpath : ¬ (f.path = "" ∨ f.path = "/dev/null")) :
    (analyze_code ai fetch [f] pr).2 =
      (f.hunks.filter (fun hunk_data =>
          decide (hunk_data.lines ≠ []) &&
          decide (ai (create_prompt ⟨f.path⟩ (build_hunk hunk_data.lines) pr)
            ≠ []))).map (fun _ => f.path) := by
  show (List.foldl _ ([], []) [f]).2 = _
  simp only [List.foldl_cons, List.foldl_nil]
  rw [if_neg hpath]
  rw [analyze_hunks_foldl]
  rfl

/-- C7 witness: on a file with two non-empty hunks and one empty hunk,
with a reviewer that always answers, the fetch log has exactly two
entries. -/
theorem c7_witness :
    (analyze_code (fun _ => [⟨1, "w"⟩]) (fun _ => [])
        [⟨"g.txt", [⟨"h1", [" a"]⟩, ⟨"h2", [" b"]⟩, ⟨"h3", []⟩]⟩]
        ⟨"o", "r", 1, "t", none⟩).2 = ["g.txt", "g.txt"] := by
  rw [c7_fetch_once_per_reviewed_hunk (fun _ => [⟨1, "w"⟩]) (fun _ => [])
      ⟨"g.txt", [⟨"h1", [" a"]⟩, ⟨"h2", [" b"]⟩, ⟨"h3", []⟩]⟩
      ⟨"o", "r", 1, "t", none⟩ (by decide)]
  rfl

/-- Counting part of the parser correspondence: parse_diff returns
exactly one file record per line of the input that begins with the diff
file marker. -/
theorem parse_diff_file_count :
    ∀ (diff_str : String), (parse_diff diff_str).length =
      ((splitlines diff_str).filter
        (fun l => starts_with l "diff --git")).length := by
  intro diff_str
  show (finalize_state _).length = _
  rw [finalize_length, foldl_num_files]
  simp [num_files, parse_init]

theorem modify_at_map_path : ∀ (l : List DiffFile) (i : Nat) (line : String),
    (modify_at l i (fun f => append_hunk_line f line)).map DiffFile.path =
      l.map DiffFile.path := by
  intro l
  induction l with
  | nil => intro i line; rfl
  | cons x xs ih =>
    intro i line
    cases i with
    | zero => simp [modify_at, append_hunk_line]
    | succ n => simp [modify_at, ih]

theorem parse_step_keeps_paths (s : ParseState) (l : String)
    (hm : starts_with l "diff --git" = false ∧
      starts_with l "--- a/" = false ∧ starts_with l "+++ b/" = false) :
    (parse_step s l).files.map DiffFile.path = s.files.map DiffFile.path ∧
    (parse_step s l).cur.map DiffFile.path = s.cur.map DiffFile.path := by
  rcases s with ⟨files, cur, loc⟩
  by_cases h4 : starts_with l "@@"
  · cases cur <;> simp [parse_step, hm.1, hm.2.1, hm.2.2, h4]
  · rcases loc with - | hl
    · simp [parse_step, hm.1, hm.2.1, hm.2.2, h4]
    · cases hl with
      | inCur => cases cur <;>
          simp [parse_step, hm.1, hm.2.1, hm.2.2, h4, append_hunk_line]
      | inFiles i =>
          simp [parse_step, hm.1, hm.2.1, hm.2.2, h4, modify_at_map_path]

theorem parse_rest_keeps_paths : ∀ (rest : List String) (s : ParseState),
    (∀ l ∈ rest, starts_with l "diff --git" = false ∧
      starts_with l "--- a/" = false ∧ starts_with l "+++ b/" = false) →
    (rest.foldl parse_step s).files.map DiffFile.path =
        s.files.map DiffFile.path ∧
    (rest.foldl parse_step s).cur.map DiffFile.path =
        s.cur.map DiffFile.path := by
  intro rest
  induction rest with
  | nil => intro s hm; exact ⟨rfl, rfl⟩
  | cons l rest ih =>
    intro s hm
    have hstep := parse_step_keeps_paths s l (hm l (by simp))
    have hrec := ih (parse_step s l) (fun x hx => hm x (by simp [hx]))
    simp only [List.foldl_cons]
    exact ⟨hrec.1.trans hstep.1, hrec.2.trans hstep.2⟩

theorem finalize_map_path (s : ParseState) :
    (finalize_state s).map DiffFile.path =
      s.files.map DiffFile.path ++
        (match s.cur with | some f => [f.path] | none => []) := by
  rcases s with ⟨files, cur, loc⟩
  cases cur <;> simp [finalize_state]

/-- C9: in a file section carrying both an original-file marker line and a
new-file marker line, the path of the parsed record is the remainder of
the new-file marker line (overriding the one set from the original-file
marker), while in a deletion section, whose target line is the literal
+++ /dev/null (which does not begin with the new-file marker), the path
from the original-file marker line is kept; the remaining section lines
may be anything that carries none of the three path-relevant markers. -/
theorem c9_target_path_overrides_source (l1 l2 : String) (rest : List String)
    (h1 : starts_with l1 "--- a/" = true)
    (h1d : starts_with l1 "diff --git" = false)
    (h2 : starts_with l2 "+++ b/" = true)
    (h2d : starts_with l2 "diff --git" = false)
    (h2s : starts_with l2 "--- a/" = false)
    (hrest : ∀ l ∈ rest, starts_with l "diff --git" = false ∧
      starts_with l "--- a/" = false ∧ starts_with l "+++ b/" = false) :
    (parse_diff_lines ("diff --git a/x b/x" :: l1 :: l2 :: rest)).map
        DiffFile.path = [drop_chars l2 6] ∧
    (parse_diff_lines ("diff --git a/x b/x" :: l1 :: "+++ /dev/null" :: rest)).map
        DiffFile.path = [drop_chars l1 6] := by
  have s1 : parse_step parse_init "diff --git a/x b/x" =
      ⟨[], some ⟨"", []⟩, none⟩ := by rfl
  have s2 : parse_step ⟨[], some ⟨"", []⟩, none⟩ l1 =
      ⟨[], some ⟨drop_chars l1 6, []⟩, none⟩ := by
    simp [parse_step, h1d, h1]
  constructor
  · have s3 : parse_step ⟨[], some ⟨drop_chars l1 6, []⟩, none⟩ l2 =
        ⟨[], some ⟨drop_chars l2 6, []⟩, none⟩ := by
      simp [parse_step, h2d, h2s, h2]
    show (finalize_state (List.foldl parse_step parse_init
        ("diff --git a/x b/x" :: l1 :: l2 :: rest))).map DiffFile.path = _
    simp only [List.foldl_cons]
    rw [s1, s2, s3]
    have hkeep := parse_rest_keeps_paths rest
      ⟨[], some ⟨drop_chars l2 6, []⟩, none⟩ hrest
    rw [finalize_map_path]
    rcases hcur : (List.foldl parse_step
        ⟨[], some ⟨drop_chars l2 6, []⟩, none⟩ rest).cur with - | f
    · rw [hcur] at hkeep
      simp at hkeep
    · rw [hcur] at hkeep
      have hf : f.path = drop_chars l2 6 := by
        have := hkeep.2
        simp at this
        exact this
      have hfl : (List.foldl parse_step
          ⟨[], some ⟨drop_chars l2 6, []⟩, none⟩ rest).files.map DiffFile.path
          = [] := by
        have := hkeep.1
        simpa using this
      rw [hfl]
      simp [hf]
  · have s3 : parse_step ⟨[], some ⟨drop_chars l1 6, []⟩, none⟩
        "+++ /dev/null" = ⟨[], some ⟨drop_chars l1 6, []⟩, none⟩ := by rfl
    show (finalize_state (List.foldl parse_step parse_init
        ("diff --git a/x b/x" :: l1 :: "+++ /dev/null" :: rest))).map
        DiffFile.path = _
    simp only [List.foldl_cons]
    rw [s1, s2, s3]
    have hkeep := parse_rest_keeps_paths rest
      ⟨[], some ⟨drop_chars l1 6, []⟩, none⟩ hrest
    rw [finalize_map_path]
    rcases hcur : (List.foldl parse_step
        ⟨[], some ⟨drop_chars l1 6, []⟩, none⟩ rest).cur with - | f
    · rw [hcur] at hkeep
      simp at hkeep
    · rw [hcur] at hkeep
      have hf : f.path = drop_chars l1 6 := by
        have := hkeep.2
        simp at this
        exact this
      have hfl : (List.foldl parse_step
          ⟨[], some ⟨drop_chars l1 6, []⟩, none⟩ rest).files.map DiffFile.path
          = [] := by
        have := hkeep.1
        simpa using this
      rw [hfl]
      simp [hf]

/-- C9 witness: a concrete modification section takes its path new.txt
from the +++ b/ line, and the corresponding deletion section keeps
old.txt from the --- a/ line. -/
theorem c9_witness :
    (parse_diff_lines ["diff --git a/x b/x", "--- a/old.txt",
        "+++ b/new.txt", "@@ -1,1 +1,1 @@", " x"]).map DiffFile.path
      = ["new.txt"] ∧
    (parse_diff_lines ["diff --git a/x b/x", "--- a/old.txt",
        "+++ /dev/null", "@@ -1,1 +1,1 @@", " x"]).map DiffFile.path
      = ["old.txt"] := by
  have h := c9_target_path_overrides_source "--- a/old.txt" "+++ b/new.txt"
    ["@@ -1,1 +1,1 @@", " x"] (by decide) (by decide) (by decide) (by decide)
    (by decide) (by decide)
  exact ⟨h.1.trans (by decide), h.2.trans (by decide)⟩

/-- C4 amended: a diff file marker closes the current file but does not
deactivate the open hunk: any line that carries none of the four marker
prefixes and appears after the diff file marker of a later file and
before that file header lines are consumed is appended to the still-live
hunk of the earlier file, as the first file of this two file diff shows. -/
theorem c4_marker_keeps_hunk_active (j : String)
    (hjd : starts_with j "diff --git" = false)
    (hjs : starts_with j "--- a/" = false)
    (hjt : starts_with j "+++ b/" = false)
    (hjh : starts_with j "@@" = false) :
    parse_diff_lines ["diff --git a/a.txt b/a.txt", "--- a/a.txt",
        "+++ b/a.txt", "@@ -1,1 +1,1 @@", " x", "diff --git a/b.txt b/b.txt",
        j, "--- a/b.txt", "+++ b/b.txt", "@@ -1,1 +1,1 @@", " y"] =
      [⟨"a.txt", [⟨"@@ -1,1 +1,1 @@", [" x", j]⟩]⟩,
       ⟨"b.txt", [⟨"@@ -1,1 +1,1 @@", [" y"]⟩]⟩] := by
  have hstep : parse_step
      ⟨[⟨"a.txt", [⟨"@@ -1,1 +1,1 @@", [" x"]⟩]⟩], some ⟨"", []⟩,
        some (HunkLoc.inFiles 0)⟩ j =
      ⟨[⟨"a.txt", [⟨"@@ -1,1 +1,1 @@", [" x", j]⟩]⟩], some ⟨"", []⟩,
        some (HunkLoc.inFiles 0)⟩ := by
    simp [parse_step, hjd, hjs, hjt, hjh, modify_at, append_hunk_line,
      add_line_last]
  show finalize_state (List.foldl parse_step
      (parse_step ⟨[⟨"a.txt", [⟨"@@ -1,1 +1,1 @@", [" x"]⟩]⟩], some ⟨"", []⟩,
        some (HunkLoc.inFiles 0)⟩ j)
      ["--- a/b.txt", "+++ b/b.txt", "@@ -1,1 +1,1 @@", " y"]) = _
  rw [hstep]
  rfl

/-- C4 witness: with the index line of the second file as the stray line,
the parse puts it into the hunk of the first file. -/
theorem c4_witness :
    parse_diff_lines ["diff --git a/a.txt b/a.txt", "--- a/a.txt",
        "+++ b/a.txt", "@@ -1,1 +1,1 @@", " x", "diff --git a/b.txt b/b.txt",
        "index 1111111..2222222 100644", "--- a/b.txt", "+++ b/b.txt",
        "@@ -1,1 +1,1 @@", " y"] =
      [⟨"a.txt", [⟨"@@ -1,1 +1,1 @@",
          [" x", "index 1111111..2222222 100644"]⟩]⟩,
       ⟨"b.txt", [⟨"@@ -1,1 +1,1 @@", [" y"]⟩]⟩] :=
  c4_marker_keeps_hunk_active "index 1111111..2222222 100644"
    (by decide) (by decide) (by decide) (by decide)

theorem filter_range_ten : ∀ (n : Nat), 1 ≤ n →
    (List.range n).filter (fun i => i % 10 = 0) =
      0 :: ((List.range (n - 10)).filter (fun i => i % 10 = 0)).map
        (fun i => i + 10) := by
  intro n
  induction n with
  | zero => intro h; omega
  | succ m ih =>
    intro h
    by_cases hm : 1 ≤ m
    · rw [List.range_succ, List.filter_append, ih hm]
      by_cases h10 : 10 ≤ m
      · have hms : m + 1 - 10 = (m - 10) + 1 := by omega
        rw [hms, List.range_succ, List.filter_append, List.map_append]
        have hmod : m % 10 = (m - 10) % 10 := by omega
        by_cases hz : m % 10 = 0
        · have hz2 : (m - 10) % 10 = 0 := by omega
          simp only [List.filter_cons, List.filter_nil, hz, hz2,
            decide_eq_true_eq, if_pos, decide_True]
          simp
          omega
        · have hz2 : ¬ (m - 10) % 10 = 0 := by omega
          simp [hz, hz2]
      · have hms : m + 1 - 10 = 0 := by omega
        have hms2 : m - 10 = 0 := by omega
        rw [hms] at *
        rw [hms2] at *
        have hz : ¬ m % 10 = 0 := by omega
        simp [hz]
    · have hm0 : m = 0 := by omega
      subst hm0
      decide

theorem batches_cons (l : List Comment) (hl : l ≠ []) :
    python_batches 10 l = l.take 10 :: python_batches 10 (l.drop 10) := by
  have hn : 1 ≤ l.length := by
    cases l with
    | nil => simp at hl
    | cons x xs => simp
  unfold python_batches
  rw [filter_range_ten l.length hn]
  simp only [List.map_cons, List.map_map, List.length_drop, List.drop_zero]
  simp [Function.comp, List.drop_drop]
  intro a ha hmod
  rw [Nat.add_comm]

theorem batches_map_length : ∀ (n : Nat) (l : List Comment), l.length ≤ n →
    (python_batches 10 l).map List.length =
      List.replicate (l.length / 10) 10 ++
        (if l.length % 10 = 0 then [] else [l.length % 10]) := by
  intro n
  induction n with
  | zero =>
    intro l h
    have hl : l = [] := by
      cases l with
      | nil => rfl
      | cons x xs => simp at h
    subst hl
    simp [python_batches]
  | succ m ih =>
    intro l h
    by_cases hl : l = []
    · subst hl
      simp [python_batches]
    · rw [batches_cons l hl]
      have hn : 1 ≤ l.length := by
        cases l with
        | nil => simp at hl
        | cons x xs => simp
      have hdrop : (l.drop 10).length = l.length - 10 := by
        simp
      simp only [List.map_cons]
      rw [ih (l.drop 10) (by omega)]
      rw [hdrop, List.length_take]
      by_cases h10 : 10 ≤ l.length
      · have hmin : min 10 l.length = 10 := by omega
        have hdiv : l.length / 10 = (l.length - 10) / 10 + 1 := by omega
        have hmod : l.length % 10 = (l.length - 10) % 10 := by omega
        rw [hmin, hdiv, hmod, List.replicate_succ]
        rfl
      · have hmin : min 10 l.length = l.length := by omega
        have hdiv : l.length / 10 = 0 := by omega
        have hmod : l.length % 10 = l.length := by omega
        have hsub : l.length - 10 = 0 := by omega
        have hz : ¬ l.length % 10 = 0 := by omega
        rw [hmin, hsub, hdiv, hmod]
        simp [hz, hl]

/-- C10: review submission with the default batch size 10 makes exactly
the ceiling of n divided by 10 submission calls, the sizes of the
successive calls being 10 for every full batch followed by n modulo 10
for the final partial batch when n is not a multiple of 10; in
particular 23 comments yield exactly 3 calls of sizes 10, 10 and 3. -/
theorem c10_batch_sizes :
    (∀ (comments : List Comment),
        (create_review_comment comments).length = (comments.length + 9) / 10) ∧
    (∀ (comments : List Comment),
        (create_review_comment comments).map List.length =
          List.replicate (comments.length / 10) 10 ++
            (if comments.length % 10 = 0 then [] else [comments.length % 10])) ∧
    (create_review_comment (List.replicate 23 ⟨"b", "p", 1, 1⟩)).map
        List.length = [10, 10, 3] := by
  have key : ∀ (comments : List Comment),
      (create_review_comment comments).map List.length =
        List.replicate (comments.length / 10) 10 ++
          (if comments.length % 10 = 0 then [] else [comments.length % 10]) :=
    fun comments =>
      batches_map_length comments.length comments (Nat.le_refl _)
  refine ⟨?_, key, by decide⟩
  intro comments
  have h := congrArg List.length (key comments)
  simp only [List.length_map, List.length_append, List.length_replicate] at h
  rw [h]
  by_cases h10 : comments.length % 10 = 0 <;> simp [h10] <;> omega

theorem head_of_starts_with : ∀ (l pre : String) (c : Char) (cs : List Char),
    starts_with l pre = true → pre.data = c :: cs →
    ∃ ds, l.data = c :: ds := by
  intro l pre c cs h hp
  unfold starts_with at h
  rw [hp] at h
  cases hld : l.data with
  | nil => rw [hld] at h; simp [prefix_of_chars] at h
  | cons d ds =>
    rw [hld] at h
    simp only [prefix_of_chars, Bool.and_eq_true, decide_eq_true_eq] at h
    exact ⟨ds, by rw [h.1]⟩

theorem starts_with_false_of_head : ∀ (l pre : String) (c c2 : Char)
    (ds cs2 : List Char), l.data = c :: ds → pre.data = c2 :: cs2 →
    ¬ c2 = c → starts_with l pre = false := by
  intro l pre c c2 ds cs2 hl hp hne
  unfold starts_with
  rw [hp, hl]
  simp only [prefix_of_chars, decide_eq_false hne]
  simp

theorem marker_line_props (l : String)
    (h : starts_with l "diff --git" = true) :
    starts_with l "--- a/" = false ∧ starts_with l "+++ b/" = false ∧
    starts_with l "@@" = false := by
  obtain ⟨ds, hd⟩ := head_of_starts_with l "diff --git" 'd' "iff --git".data h rfl
  refine ⟨?_, ?_, ?_⟩
  · exact starts_with_false_of_head l "--- a/" 'd' '-' ds "-- a/".data hd rfl
      (by decide)
  · exact starts_with_false_of_head l "+++ b/" 'd' '+' ds "++ b/".data hd rfl
      (by decide)
  · exact starts_with_false_of_head l "@@" 'd' '@' ds "@".data hd rfl
      (by decide)

theorem source_marker_not_header (l : String)
    (h : starts_with l "--- a/" = true) : starts_with l "@@" = false := by
  obtain ⟨ds, hd⟩ := head_of_starts_with l "--- a/" '-' "-- a/".data h rfl
  exact starts_with_false_of_head l "@@" '-' '@' ds "@".data hd rfl (by decide)

theorem target_marker_not_header (l : String)
    (h : starts_with l "+++ b/" = true) : starts_with l "@@" = false := by
  obtain ⟨ds, hd⟩ := head_of_starts_with l "+++ b/" '+' "++ b/".data h rfl
  exact starts_with_false_of_head l "@@" '+' '@' ds "@".data hd rfl (by decide)

theorem add_line_last_headers : ∀ (hs : List HunkData) (line : String),
    (add_line_last hs line).map HunkData.header = hs.map HunkData.header := by
  intro hs
  induction hs with
  | nil => intro line; rfl
  | cons h rest ih =>
    intro line
    cases rest with
    | nil => rfl
    | cons h2 rest2 => simp [add_line_last, ih]

theorem append_hunk_line_record (f : DiffFile) (line : String) :
    record_spec (append_hunk_line f line) = record_spec f := by
  simp [record_spec, append_hunk_line, add_line_last_headers]

theorem modify_at_map_record : ∀ (l : List DiffFile) (i : Nat) (line : String),
    (modify_at l i (fun f => append_hunk_line f line)).map record_spec =
      l.map record_spec := by
  intro l
  induction l with
  | nil => intro i line; rfl
  | cons x xs ih =>
    intro i line
    cases i with
    | zero => simp [modify_at, append_hunk_line_record]
    | succ n => simp [modify_at, ih]

theorem parse_step_records (s : ParseState) (l : String)
    (hm : starts_with l "diff --git" = false) :
    (parse_step s l).files.map record_spec = s.files.map record_spec ∧
    (parse_step s l).cur.map record_spec =
      s.cur.map (fun f => (path_update f.path l,
        f.hunks.map HunkData.header ++
          (if starts_with l "@@" then [l] else []))) := by
  rcases s with ⟨files, cur, loc⟩
  by_cases h2 : starts_with l "--- a/"
  · have h4 := source_marker_not_header l h2
    cases cur <;>
      simp [parse_step, hm, h2, h4, record_spec, path_update]
  · by_cases h3 : starts_with l "+++ b/"
    · have h4 := target_marker_not_header l h3
      cases cur <;>
        simp [parse_step, hm, h2, h3, h4, record_spec, path_update]
    · by_cases h4 : starts_with l "@@"
      · cases cur <;>
          simp [parse_step, hm, h2, h3, h4, record_spec, path_update]
      · rcases loc with - | hl
        · cases cur <;>
            simp [parse_step, hm, h2, h3, h4, record_spec, path_update]
        · cases hl with
          | inCur =>
            cases cur <;>
              simp [parse_step, hm, h2, h3, h4, record_spec, path_update,
                append_hunk_line, add_line_last_headers]
          | inFiles i =>
            cases cur <;>
              simp [parse_step, hm, h2, h3, h4, record_spec, path_update,
                modify_at_map_record]

theorem parse_result_sections : ∀ (ls : List String) (s : ParseState),
    (finalize_state (ls.foldl parse_step s)).map record_spec =
      s.files.map record_spec ++
      (match s.cur with
       | some f => [((split_sections_aux ls).1.foldl path_update f.path,
                     f.hunks.map HunkData.header ++
                       (split_sections_aux ls).1.filter
                         (fun l => starts_with l "@@"))]
       | none => []) ++
      (split_sections_aux ls).2.map section_spec := by
  intro ls
  induction ls with
  | nil =>
    intro s
    rcases s with ⟨files, cur, loc⟩
    cases cur <;>
      simp [split_sections_aux, finalize_state, record_spec]
  | cons l ls ih =>
    intro s
    simp only [List.foldl_cons]
    by_cases hm : starts_with l "diff --git"
    · obtain ⟨hm2, hm3, hm4⟩ := marker_line_props l hm
      rcases s with ⟨files, cur, loc⟩
      cases cur with
      | none =>
        rw [show parse_step ⟨files, none, loc⟩ l = ⟨files, some ⟨"", []⟩, loc⟩
            from by simp [parse_step, hm]]
        rw [ih]
        simp [split_sections_aux, hm, section_spec, path_update, hm2, hm3, hm4]
      | some f =>
        rw [show parse_step ⟨files, some f, loc⟩ l =
            ⟨files ++ [f], some ⟨"", []⟩,
             match loc with
             | some HunkLoc.inCur => some (HunkLoc.inFiles files.length)
             | other => other⟩ from by simp [parse_step, hm]]
        rw [ih]
        simp [split_sections_aux, hm, section_spec, path_update, hm2, hm3,
          hm4, record_spec]
    · have hm2 : starts_with l "diff --git" = false := by
        simpa using hm
      have hsr := parse_step_records s l hm2
      rw [ih]
      rcases hc : s.cur with - | f
      · have hnone : (parse_step s l).cur = none := by
          have h2 := hsr.2
          rw [hc] at h2
          simpa using h2
        simp [split_sections_aux, hm2, hsr.1, hnone, hc]
      · have h2 := hsr.2
        rw [hc] at h2
        rcases hcur : (parse_step s l).cur with - | f2
        · rw [hcur] at h2
          simp at h2
        · rw [hcur] at h2
          simp only [Option.map_some', Option.some.injEq] at h2
          have hp : f2.path = path_update f.path l := by
            have := congrArg Prod.fst h2
            simpa [record_spec] using this
          have hh : f2.hunks.map HunkData.header =
              f.hunks.map HunkData.header ++
                (if starts_with l "@@" then [l] else []) := by
            have := congrArg Prod.snd h2
            simpa [record_spec] using this
          simp only [split_sections_aux, hm2, Bool.false_eq_true, if_false,
            hsr.1, hcur, hc]
          rw [hp, hh]
          by_cases h4 : starts_with l "@@" <;>
            simp [h4, List.filter_cons, List.foldl_cons]

theorem split_sections_count : ∀ (ls : List String),
    (split_sections_aux ls).2.length =
      (ls.filter (fun l => starts_with l "diff --git")).length := by
  intro ls
  induction ls with
  | nil => rfl
  | cons l ls ih =>
    by_cases hm : starts_with l "diff --git" <;>
      simp [split_sections_aux, List.filter_cons, hm, ih]

/-- C8: for every input diff, parse_diff returns exactly one file record
per line beginning with the diff file marker, and the records appear in
the order of those marker lines: the k-th record of the result is the one
produced by the k-th marker section of the input — its path and its list
of hunk header lines are exactly those computed from that section by the
section specification. -/
theorem c8_parse_diff_count_and_order :
    ∀ (diff_str : String),
    (parse_diff diff_str).map record_spec =
      (split_sections (splitlines diff_str)).map section_spec ∧
    (parse_diff diff_str).length =
      ((splitlines diff_str).filter
        (fun l => starts_with l "diff --git")).length := by
  intro diff_str
  constructor
  · have h := parse_result_sections (splitlines diff_str) parse_init
    show (finalize_state ((splitlines diff_str).foldl parse_step
        parse_init)).map record_spec = _
    rw [h]
    rfl
  · exact parse_diff_file_count diff_str

end ReviewCodeGemini
